import Mathlib

/-!
Verification development for a one-directional Trello-to-Google-Calendar
reconciliation job (src/main.py).  The Python source is shallowly embedded:

* `convert_utc_to_jst` models the timestamp normalizer, including the exact
  acceptance behaviour of CPython `datetime.strptime` on the two fixed format
  strings (fields of one or two ASCII digits as in the strptime regular
  expressions, case-insensitive `T`/`Z` literals, a fractional part of one to
  six digits, and the constructor range checks), the nine-hour `timedelta`
  shift, and the `datetime` year bound 9999: shifting past year 9999 raises
  an `OverflowError`, which the `except ValueError` clause of the source does
  not catch.  Output strings are zero-padded as by `strftime`.
* `get_existing_events` / `extract_card_id` model the destination index
  builder; Python `str.split` is modelled on lists of characters.
* `update_or_create_event` models the per-card dispatch step; the external
  calendar client is a parameter returning `Except`, the board-name lookup
  (total by its own exception handler) is a parameter `resolve`.
* `main_run` models the orchestration in `main`.
-/

namespace TrelloSync

/-! ## Calendar datetime model -/

/-- Datetime record as carried by `datetime.datetime` (microseconds are
dropped: they never influence the emitted date or time strings). -/
structure DT where
  y : Nat
  m : Nat
  d : Nat
  hh : Nat
  mi : Nat
  ss : Nat
deriving DecidableEq

/-- Gregorian leap-year rule, as implemented by `datetime`. -/
def isLeap (y : Nat) : Bool :=
  (y % 4 == 0 && y % 100 != 0) || y % 400 == 0

/-- Days in a month, as validated by the `datetime` constructor. -/
def daysInMonth (y m : Nat) : Nat :=
  if m = 2 then (if isLeap y then 29 else 28)
  else if m = 4 ∨ m = 6 ∨ m = 9 ∨ m = 11 then 30
  else 31

/-- Range checks performed by the `datetime` constructor (`MINYEAR = 1`,
`MAXYEAR = 9999`); a violation raises `ValueError`, which
`convert_utc_to_jst` catches. -/
def validDT (dt : DT) : Bool :=
  decide (1 ≤ dt.y) && decide (dt.y ≤ 9999) &&
  decide (1 ≤ dt.m) && decide (dt.m ≤ 12) &&
  decide (1 ≤ dt.d) && decide (dt.d ≤ daysInMonth dt.y dt.m) &&
  decide (dt.hh ≤ 23) && decide (dt.mi ≤ 59) && decide (dt.ss ≤ 59)

/-! ## strptime for the two fixed formats -/

/-- Value of an ASCII digit. -/
def digitVal (c : Char) : Option Nat :=
  if c.isDigit then some (c.toNat - 48) else none

/-- Read a calendar field of one or two ASCII digits, as matched by the
CPython strptime regular expressions.  Since every field is followed by a
non-digit literal, a field is read as two digits when two digits are
present (accepted when `ok2` holds of the value, as in the two-digit regex
alternatives) and as one digit otherwise (accepted when `ok1` holds). -/
def readField (ok2 ok1 : Nat → Bool) : List Char → Option (Nat × List Char)
  | c1 :: c2 :: rest =>
    match digitVal c1, digitVal c2 with
    | some a, some b =>
      if ok2 (10 * a + b) then some (10 * a + b, rest) else none
    | some a, none => if ok1 a then some (a, c2 :: rest) else none
    | none, _ => none
  | [c1] =>
    match digitVal c1 with
    | some a => if ok1 a then some (a, []) else none
    | none => none
  | [] => none

/-- Read exactly four ASCII digits (the strptime `%Y` directive). -/
def read4 : List Char → Option (Nat × List Char)
  | a :: b :: c :: d :: rest =>
    match digitVal a, digitVal b, digitVal c, digitVal d with
    | some x, some y, some z, some w =>
      some (1000 * x + 100 * y + 10 * z + w, rest)
    | _, _, _, _ => none
  | _ => none

/-- Consume one expected literal character. -/
def expectCh (ch : Char) : List Char → Option (List Char)
  | c :: rest => if c = ch then some rest else none
  | [] => none

/-- Consume a literal letter case-insensitively (strptime compiles its
format regex with `IGNORECASE`). -/
def expectCI (lo up : Char) : List Char → Option (List Char)
  | c :: rest => if c = lo ∨ c = up then some rest else none
  | [] => none

/-- Parse the shared `%Y-%m-%dT%H:%M:%S` core of both formats. -/
def parseCore (cs : List Char) : Option (DT × List Char) := do
  let (y, cs) ← read4 cs
  let cs ← expectCh '-' cs
  let (m, cs) ← readField (fun v => decide (1 ≤ v ∧ v ≤ 12))
      (fun v => decide (1 ≤ v)) cs
  let cs ← expectCh '-' cs
  let (d, cs) ← readField (fun v => decide (1 ≤ v ∧ v ≤ 31))
      (fun v => decide (1 ≤ v)) cs
  let cs ← expectCI 't' 'T' cs
  let (hh, cs) ← readField (fun v => decide (v ≤ 23)) (fun _ => true) cs
  let cs ← expectCh ':' cs
  let (mi, cs) ← readField (fun v => decide (v ≤ 59)) (fun _ => true) cs
  let cs ← expectCh ':' cs
  let (ss, cs) ← readField (fun v => decide (v ≤ 61)) (fun _ => true) cs
  pure (⟨y, m, d, hh, mi, ss⟩, cs)

/-- strptime with format `%Y-%m-%dT%H:%M:%SZ` followed by the `datetime`
constructor checks; `none` models a raised-and-caught `ValueError`. -/
def parsePlain (s : String) : Option DT :=
  match parseCore s.data with
  | some (dt, rest) =>
    if (rest = ['Z'] ∨ rest = ['z']) ∧ validDT dt = true then some dt else none
  | none => none

/-- strptime with format `%Y-%m-%dT%H:%M:%S.%fZ` (fraction of one to six
digits, ignored in the result) followed by the constructor checks. -/
def parseFrac (s : String) : Option DT :=
  match parseCore s.data with
  | some (dt, rest) =>
    match rest with
    | '.' :: rest2 =>
      let frac := rest2.takeWhile (fun c => c.isDigit)
      let rest3 := rest2.dropWhile (fun c => c.isDigit)
      if (1 ≤ frac.length ∧ frac.length ≤ 6) ∧
          (rest3 = ['Z'] ∨ rest3 = ['z']) ∧ validDT dt = true
      then some dt else none
    | _ => none
  | none => none

/-- Format choice of the source: `"%Y-%m-%dT%H:%M:%S.%fZ" if "." in utc_str
else "%Y-%m-%dT%H:%M:%SZ"`. -/
def parseTs (s : String) : Option DT :=
  if s.data.contains '.' then parseFrac s else parsePlain s

/-! ## The nine-hour shift and strftime output -/

/-- Successor date (the only calendar step `timedelta(hours=9)` can take). -/
def nextDay (dt : DT) : DT :=
  if dt.d < daysInMonth dt.y dt.m then ⟨dt.y, dt.m, dt.d + 1, dt.hh, dt.mi, dt.ss⟩
  else if dt.m < 12 then ⟨dt.y, dt.m + 1, 1, dt.hh, dt.mi, dt.ss⟩
  else ⟨dt.y + 1, 1, 1, dt.hh, dt.mi, dt.ss⟩

/-- `utc_date + timedelta(hours=9)` on the calendar fields (minutes and
seconds are unchanged; `nextDay` preserves them as well). -/
def addNine (dt : DT) : DT :=
  if dt.hh + 9 ≤ 23 then ⟨dt.y, dt.m, dt.d, dt.hh + 9, dt.mi, dt.ss⟩
  else ⟨(nextDay dt).y, (nextDay dt).m, (nextDay dt).d, dt.hh + 9 - 24, dt.mi, dt.ss⟩

/-- Zero-pad to two digits (strftime `%m`, `%d`, `%H`, `%M`, `%S`). -/
def pad2 (n : Nat) : String :=
  if n < 10 then "0" ++ Nat.repr n else Nat.repr n

/-- Zero-pad to four digits (strftime `%Y`). -/
def pad4 (n : Nat) : String :=
  if n < 10 then "000" ++ Nat.repr n
  else if n < 100 then "00" ++ Nat.repr n
  else if n < 1000 then "0" ++ Nat.repr n
  else Nat.repr n

/-- `strftime("%Y-%m-%d")`. -/
def fmtDate (dt : DT) : String :=
  pad4 dt.y ++ "-" ++ pad2 dt.m ++ "-" ++ pad2 dt.d

/-- `strftime("%H:%M:%S")`. -/
def fmtTime (dt : DT) : String :=
  pad2 dt.hh ++ ":" ++ pad2 dt.mi ++ ":" ++ pad2 dt.ss

/-- Exceptions of the embedding that the source fails to catch:
`datetime` arithmetic past year 9999 raises `OverflowError`, which is not a
`ValueError` and so escapes `convert_utc_to_jst`. -/
inductive PyErr
  | overflowErr
deriving DecidableEq

/-- Timestamp normalizer `convert_utc_to_jst` of the source.  `none` input
models a missing field; the falsiness test `if not utc_str` also maps the
empty string to `(None, None)`.  A parse failure is a caught `ValueError`
giving `(None, None)`; a successful parse is shifted by nine hours and
formatted, unless the shift overflows year 9999, in which case the
uncaught `OverflowError` is raised. -/
def convert_utc_to_jst (utc : Option String) :
    Except PyErr (Option String × Option String) :=
  match utc with
  | none => .ok (none, none)
  | some s =>
    if s = "" then .ok (none, none)
    else
      match parseTs s with
      | none => .ok (none, none)
      | some dt =>
        let j := addNine dt
        if j.y ≤ 9999 then .ok (some (fmtDate j), some (fmtTime j))
        else .error .overflowErr

/-! ## Absolute time (specification side)

`dayNumber` and `toSecs` give the proleptic-Gregorian linear timeline used
to state that the normalizer shifts instants by exactly nine hours. -/

/-- Days before month `m` in a non-leap year. -/
def monthOffset : Nat → Nat
  | 1 => 0 | 2 => 31 | 3 => 59 | 4 => 90 | 5 => 120 | 6 => 151
  | 7 => 181 | 8 => 212 | 9 => 243 | 10 => 273 | 11 => 304 | 12 => 334
  | _ => 0

/-- Day index of a date on the proleptic Gregorian calendar. -/
def dayNumber (dt : DT) : Nat :=
  365 * (dt.y - 1) + (dt.y - 1) / 4 + (dt.y - 1) / 400 - (dt.y - 1) / 100
    + monthOffset dt.m
    + (if 3 ≤ dt.m ∧ isLeap dt.y = true then 1 else 0)
    + (dt.d - 1)

/-- Seconds since the calendar origin. -/
def toSecs (dt : DT) : Nat :=
  86400 * dayNumber dt + 3600 * dt.hh + 60 * dt.mi + dt.ss

/-! ## Data model of the two services -/

/-- Trello card as returned by `get_trello_cards` with
`fields = "name,due,start,idBoard,url"` (plus the always-present `id`). -/
structure Card where
  id : String
  name : String
  start : Option String
  due : Option String
  idBoard : Option String
  url : Option String
deriving DecidableEq

/-- Calendar event row as returned by the list call with
`fields = "items(id,description)"`. -/
structure GItem where
  id : String
  description : Option String
deriving DecidableEq

/-- Event payload built by `update_or_create_event` (the two `timeZone`
fields are carried explicitly). -/
structure GEvent where
  summary : String
  description : String
  startDateTime : String
  startTimeZone : String
  endDateTime : String
  endTimeZone : String
deriving DecidableEq

/-- Python truthiness of an optional string (`None` and `""` are falsy). -/
def truthyO (o : Option String) : Bool :=
  match o with
  | none => false
  | some s => !(s == "")

/-- Python `a or b` on two optional strings. -/
def pyOr (a b : Option String) : Option String :=
  if truthyO a then a else b

/-- Python f-string interpolation of an optional string. -/
def pyStr (o : Option String) : String :=
  match o with
  | none => "None"
  | some s => s

/-- Python `o or dflt` where the result is used as a string. -/
def pyOrD (o : Option String) (dflt : String) : String :=
  if truthyO o then pyStr o else dflt

/-! ## Destination index builder -/

/-- Fixed marker literal embedded in every event description. -/
def marker : String := "TrelloカードID: "

/-- Split a character list at the first occurrence of `sep`: `some (pre,
post)` with the occurrence removed, or `none` when `sep` (nonempty) does
not occur. -/
def breakOn (sep : List Char) : List Char → Option (List Char × List Char)
  | [] => none
  | c :: rest =>
    if sep.isPrefixOf (c :: rest) then some ([], (c :: rest).drop sep.length)
    else
      match breakOn sep rest with
      | some pr => some (c :: pr.1, pr.2)
      | none => none

/-- Suffix after the first occurrence of `sep` (defined when it occurs;
callers guard with the substring test, as the source does). -/
def pyAfterFirst (sep s : List Char) : List Char :=
  match breakOn sep s with
  | some pr => pr.2
  | none => []

/-- Prefix up to the next occurrence of `sep`, or all of `s`: the head
element of Python `s.split(sep)`. -/
def pyUpToNext (sep s : List Char) : List Char :=
  match breakOn sep s with
  | some pr => pr.1
  | none => s

/-- Python `desc.split("TrelloカードID: ")[1].split("\n")[0]` of the index
builder: the text between the marker and the next line break (bounded by
the next marker occurrence, as the second `split` piece is). -/
def extract_card_id (desc : String) : String :=
  String.mk (pyUpToNext ['\n'] (pyUpToNext marker.data (pyAfterFirst marker.data desc.data)))

/-- Guarded extraction for one listed event: Python membership
`"TrelloカードID: " in item.get("description", "")` is contiguous-substring
(infix) occurrence. -/
def extractKey (e : GItem) : Option String :=
  let desc := e.description.getD ""
  if marker.data <:+: desc.data then some (extract_card_id desc) else none

/-- Entries inserted into the `events` dict, in iteration order. -/
def indexPairs (evs : List GItem) : List (String × String) :=
  evs.filterMap (fun e => (extractKey e).map (fun k => (k, e.id)))

/-- Python dict lookup over insertion-ordered pairs: the last write wins. -/
def dictGetLast (ps : List (String × String)) (k : String) : Option String :=
  (ps.reverse.find? (fun pr => pr.1 == k)).map (fun pr => pr.2)

/-- Destination index builder `get_existing_events`: its argument is the
outcome of the calendar list call; any exception there is caught and an
empty dict returned. -/
def get_existing_events : Except String (List GItem) → List (String × String)
  | .error _ => []
  | .ok evs => indexPairs evs

/-! ## Reconciliation engine -/

/-- Destination-client calls issued by the engine. -/
inductive Call
  | create (body : GEvent)
  | update (eventId : String) (body : GEvent)
deriving DecidableEq

/-- Per-item terminal state. -/
inductive Outcome
  | skipped
  | succeeded
  | failed (logMsg : String)
deriving DecidableEq

/-- Description written by the engine:
`f"TrelloカードID: {card_id}\nURL: {card.get('url', '')}"`. -/
def descFor (c : Card) : String :=
  marker ++ c.id ++ "\nURL: " ++ c.url.getD ""

/-- Event payload of `update_or_create_event` (lines 156-167 of the
source); `resolve` stands for `get_board_name`, which is total thanks to
its own exception handler. -/
def mkGEvent (resolve : Option String → String) (c : Card)
    (sd st dd dtm : Option String) : GEvent :=
  { summary := "[" ++ resolve c.idBoard ++ "] " ++ c.name
  , description := descFor c
  , startDateTime := pyStr sd ++ "T" ++ pyOrD st "09:00:00"
  , startTimeZone := "Asia/Tokyo"
  , endDateTime := pyStr dd ++ "T" ++ pyOrD dtm "18:00:00"
  , endTimeZone := "Asia/Tokyo" }

/-- Create-versus-update choice on `event_id = existing_events.get(card_id)`
with Python truthiness (`if event_id:`). -/
def dispatchOf (idx : List (String × String)) (cardId : String) (ev : GEvent) : Call :=
  match dictGetLast idx cardId with
  | some eid => if eid = "" then .create ev else .update eid ev
  | none => .create ev

/-- Decision part of `update_or_create_event`: normalize the two
timestamps (line 148 first, then line 149 — an uncaught normalizer
exception propagates in that order), skip unless both dates are truthy,
otherwise build the payload and choose the call. -/
def eventDecision (resolve : Option String → String) (c : Card)
    (idx : List (String × String)) : Except PyErr (Option Call) :=
  match convert_utc_to_jst (pyOr c.start c.due) with
  | .error e => .error e
  | .ok (sd, st) =>
    match convert_utc_to_jst c.due with
    | .error e => .error e
    | .ok (dd, dtm) =>
      if truthyO sd && truthyO dd then
        .ok (some (dispatchOf idx c.id (mkGEvent resolve c sd st dd dtm)))
      else .ok none

/-- Log line of the per-item exception handler (lines 179-180). -/
def logFail (c : Card) (e : String) : String :=
  "イベント処理失敗: " ++ c.name ++ " - " ++ e

/-- Full `update_or_create_event`: the chosen call is executed against the
client; any client failure is caught and logged, so the function returns
normally.  The first component records the client calls issued for this
card (at most one; never retried). -/
def update_or_create_event (client : Call → Except String Unit)
    (resolve : Option String → String) (c : Card)
    (idx : List (String × String)) : Except PyErr (List Call × Outcome) :=
  match eventDecision resolve c idx with
  | .error e => .error e
  | .ok none => .ok ([], .skipped)
  | .ok (some call) =>
    match client call with
    | .ok _ => .ok ([call], .succeeded)
    | .error e => .ok ([call], .failed (logFail c e))

/-- The `for card in cards` loop of `main`: sequential, aborting only on an
uncaught exception from `update_or_create_event`. -/
def runBatch (client : Call → Except String Unit)
    (resolve : Option String → String) (idx : List (String × String)) :
    List Card → Except PyErr (List (List Call × Outcome))
  | [] => .ok []
  | c :: cs =>
    match update_or_create_event client resolve c idx with
    | .error e => .error e
    | .ok r =>
      match runBatch client resolve idx cs with
      | .error e => .error e
      | .ok rs => .ok (r :: rs)

/-- Source fetcher `get_trello_cards`: a request exception is caught and an
empty list returned. -/
def get_trello_cards : Except String (List Card) → List Card
  | .error _ => []
  | .ok cs => cs

/-- Orchestration of `main`: build the index, fetch the cards, return
early on an empty batch, else run the loop.  The result carries the
per-card issued calls and outcomes. -/
def main_run (eventsR : Except String (List GItem))
    (cardsR : Except String (List Card)) (client : Call → Except String Unit)
    (resolve : Option String → String) :
    Except PyErr (List (List Call × Outcome)) :=
  let idx := get_existing_events eventsR
  let cards := get_trello_cards cardsR
  if cards.isEmpty then .ok []
  else runBatch client resolve idx cards

/-- The create test on a call. -/
def isCreateCall : Call → Bool
  | .create _ => true
  | .update _ _ => false

/-- The update test on a call. -/
def isUpdateCall : Call → Bool
  | .create _ => false
  | .update _ _ => true

/-- Payload carried by a call. -/
def eventOf : Call → GEvent
  | .create ev => ev
  | .update _ ev => ev

/-- Number of create calls issued in a batch result. -/
def countCreates (rs : List (List Call × Outcome)) : Nat :=
  ((rs.map Prod.fst).flatten).countP isCreateCall

/-- Number of update calls issued in a batch result. -/
def countUpdates (rs : List (List Call × Outcome)) : Nat :=
  ((rs.map Prod.fst).flatten).countP isUpdateCall

/-! ## Concrete fixtures used by the claim evaluations -/

/-- Board-name resolver fixture (a total stand-in for `get_board_name`). -/
def resolveFix : Option String → String := fun _ => "Work"

/-- Destination client that always succeeds. -/
def clientOk : Call → Except String Unit := fun _ => .ok ()

/-- Destination client that always fails. -/
def clientFail : Call → Except String Unit := fun _ => .error "boom"

/-- Card with only a due timestamp (midnight UTC). -/
def card6 : Card := ⟨"c6", "task6", none, some "2025-07-01T00:00:00Z", none, none⟩

/-- Card with neither start nor due. -/
def cardNoDates : Card := ⟨"c0", "task0", none, none, none, none⟩

/-- Card whose only timestamp string does not parse. -/
def cardBadDate : Card := ⟨"c1", "task1", some "not-a-date", none, none, none⟩

/-- Card whose start does not parse and whose due is within nine hours of
the year-10000 bound. -/
def cardOverflow : Card :=
  ⟨"c2", "task2", some "not-a-date", some "9999-12-31T15:00:00Z", none, none⟩

/-- Ordinary card with board and URL. -/
def cardPlain : Card :=
  ⟨"c3", "task3", none, some "2025-03-10T09:00:00Z", some "b1",
    some "https://trello.example/c3"⟩

/-- Card whose identifier itself contains the marker literal. -/
def cardMarkerId : Card :=
  ⟨"xTrelloカードID: y", "task4", none, some "2025-07-01T00:00:00Z", none,
    some "https://x"⟩

/-- Expected payload for `card6`. -/
def ev6 : GEvent :=
  { summary := "[Work] task6"
  , description := "TrelloカードID: c6\nURL: "
  , startDateTime := "2025-07-01T09:00:00", startTimeZone := "Asia/Tokyo"
  , endDateTime := "2025-07-01T09:00:00", endTimeZone := "Asia/Tokyo" }

/-- Expected payload for `cardPlain`. -/
def evC3 : GEvent :=
  { summary := "[Work] task3"
  , description := "TrelloカードID: c3\nURL: https://trello.example/c3"
  , startDateTime := "2025-03-10T18:00:00", startTimeZone := "Asia/Tokyo"
  , endDateTime := "2025-03-10T18:00:00", endTimeZone := "Asia/Tokyo" }

/-- Index mapping `cardPlain` to an existing event. -/
def idx3 : List (String × String) := [("c3", "evX")]

/-- Destination snapshot after a run over `[cardMarkerId]`: one event whose
description is exactly the engine-written payload for that card. -/
def evs5 : List GItem := [⟨"e1", some (descFor cardMarkerId)⟩]

/-- Destination snapshot after a run over `[cardPlain]`. -/
def evs5w : List GItem := [⟨"e9", some (descFor cardPlain)⟩]

/-- Decidable equality of `Except` results (used to evaluate the model on
concrete inputs). -/
instance instDecEqExcept {ε α : Type} [DecidableEq ε] [DecidableEq α] :
    DecidableEq (Except ε α) := fun a b =>
  match a, b with
  | .ok x, .ok y =>
    if h : x = y then isTrue (by rw [h])
    else isFalse (fun hc => by cases hc; exact h rfl)
  | .error x, .error y =>
    if h : x = y then isTrue (by rw [h])
    else isFalse (fun hc => by cases hc; exact h rfl)
  | .ok _, .error _ => isFalse (fun hc => by cases hc)
  | .error _, .ok _ => isFalse (fun hc => by cases hc)

/-! ## Calendar arithmetic lemmas -/

theorem validDT_iff (dt : DT) : validDT dt = true ↔
    1 ≤ dt.y ∧ dt.y ≤ 9999 ∧ 1 ≤ dt.m ∧ dt.m ≤ 12 ∧ 1 ≤ dt.d ∧
    dt.d ≤ daysInMonth dt.y dt.m ∧ dt.hh ≤ 23 ∧ dt.mi ≤ 59 ∧ dt.ss ≤ 59 := by
  simp [validDT, and_assoc]

theorem dayNumber_succ_d (y m d hh mi ss : Nat) (hd1 : 1 ≤ d) :
    dayNumber ⟨y, m, d + 1, hh, mi, ss⟩ = dayNumber ⟨y, m, d, hh, mi, ss⟩ + 1 := by
  unfold dayNumber
  simp only
  omega

set_option maxHeartbeats 1600000 in
theorem dayNumber_monthRoll (y m hh mi ss : Nat) (hm1 : 1 ≤ m) (hm : m < 12) :
    dayNumber ⟨y, m + 1, 1, hh, mi, ss⟩ =
    dayNumber ⟨y, m, daysInMonth y m, hh, mi, ss⟩ + 1 := by
  unfold dayNumber
  simp only
  interval_cases m <;> cases hL : isLeap y <;>
    simp [daysInMonth, monthOffset, hL]

set_option maxHeartbeats 1600000 in
theorem dayNumber_yearRoll (y hh mi ss : Nat) (hy1 : 1 ≤ y) :
    dayNumber ⟨y + 1, 1, 1, hh, mi, ss⟩ = dayNumber ⟨y, 12, 31, hh, mi, ss⟩ + 1 := by
  have hiff : isLeap y = true ↔ ((y % 4 = 0 ∧ ¬ (y % 100 = 0)) ∨ y % 400 = 0) := by
    simp [isLeap]
  unfold dayNumber
  simp only [monthOffset]
  by_cases hLp : ((y % 4 = 0 ∧ ¬ (y % 100 = 0)) ∨ y % 400 = 0)
  · rw [if_neg (by simp : ¬(3 ≤ 1 ∧ isLeap (y + 1) = true)),
      if_pos (⟨by norm_num, hiff.mpr hLp⟩ : 3 ≤ 12 ∧ isLeap y = true)]
    clear hiff
    omega
  · rw [if_neg (by simp : ¬(3 ≤ 1 ∧ isLeap (y + 1) = true)),
      if_neg (fun hc => hLp (hiff.mp hc.2) : ¬(3 ≤ 12 ∧ isLeap y = true))]
    clear hiff
    omega

theorem dayNumber_nextDay (dt : DT) (h : validDT dt = true) :
    dayNumber (nextDay dt) = dayNumber dt + 1 := by
  rw [validDT_iff] at h
  obtain ⟨y, m, d, hh, mi, ss⟩ := dt
  simp only at h
  obtain ⟨hy1, hy2, hm1, hm2, hd1, hd2, -, -, -⟩ := h
  unfold nextDay
  by_cases hlt : d < daysInMonth y m
  · simp only [hlt, if_pos]
    exact dayNumber_succ_d y m d hh mi ss hd1
  · have hdd : d = daysInMonth y m := by omega
    by_cases hm : m < 12
    · simp only [hlt, hm, if_neg, if_pos, not_false_eq_true]
      rw [hdd]
      exact dayNumber_monthRoll y m hh mi ss hm1 hm
    · simp only [hlt, hm, if_neg, not_false_eq_true]
      have hm12 : m = 12 := by omega
      subst hm12
      have hdim : daysInMonth y 12 = 31 := by simp [daysInMonth]
      have hd31 : d = 31 := by rw [hdim] at hdd; exact hdd
      subst hd31
      exact dayNumber_yearRoll y hh mi ss hy1

theorem toSecs_addNine (dt : DT) (h : validDT dt = true) :
    toSecs (addNine dt) = toSecs dt + 9 * 3600 := by
  have hnext := dayNumber_nextDay dt h
  rw [validDT_iff] at h
  obtain ⟨-, -, -, -, -, -, hhh, -, -⟩ := h
  unfold addNine
  by_cases hc : dt.hh + 9 ≤ 23
  · simp only [hc, if_pos]
    obtain ⟨y, m, d, hh, mi, ss⟩ := dt
    unfold toSecs dayNumber
    simp only
    omega
  · simp only [hc, if_neg, not_false_eq_true]
    have hdn : dayNumber ⟨(nextDay dt).y, (nextDay dt).m, (nextDay dt).d,
        dt.hh + 9 - 24, dt.mi, dt.ss⟩ = dayNumber (nextDay dt) := rfl
    unfold toSecs
    rw [hdn, hnext]
    simp only
    omega

/-! ## Normalizer lemmas -/

theorem parsePlain_valid {s : String} {dt : DT} (h : parsePlain s = some dt) :
    validDT dt = true := by
  unfold parsePlain at h
  cases hp : parseCore s.data with
  | none => rw [hp] at h; cases h
  | some pr =>
    obtain ⟨dt', rest⟩ := pr
    rw [hp] at h
    simp only at h
    split at h
    · cases h
      next hc => exact hc.2
    · cases h

theorem parseFrac_valid {s : String} {dt : DT} (h : parseFrac s = some dt) :
    validDT dt = true := by
  unfold parseFrac at h
  cases hp : parseCore s.data with
  | none => rw [hp] at h; cases h
  | some pr =>
    obtain ⟨dt', rest⟩ := pr
    rw [hp] at h
    simp only at h
    cases rest with
    | nil => cases h
    | cons c rest2 =>
      split at h
      · split at h
        · cases h
          next hc => exact hc.2.2
        · cases h
      · cases h

theorem parseTs_valid {s : String} {dt : DT} (h : parseTs s = some dt) :
    validDT dt = true := by
  unfold parseTs at h
  by_cases hc : s.data.contains '.'
  · rw [if_pos hc] at h; exact parseFrac_valid h
  · rw [if_neg hc] at h; exact parsePlain_valid h

theorem parseTs_empty : parseTs "" = none := rfl

theorem convert_of_parse {s : String} {dt : DT} (h : parseTs s = some dt) :
    convert_utc_to_jst (some s) =
      (if (addNine dt).y ≤ 9999
       then .ok (some (fmtDate (addNine dt)), some (fmtTime (addNine dt)))
       else .error .overflowErr) := by
  have hne : ¬ (s = "") := by
    intro he; subst he; rw [parseTs_empty] at h; cases h
  unfold convert_utc_to_jst
  dsimp only
  rw [if_neg hne, h]

theorem convert_of_parse_fail {s : String} (hne : s ≠ "") (h : parseTs s = none) :
    convert_utc_to_jst (some s) = .ok (none, none) := by
  unfold convert_utc_to_jst
  dsimp only
  rw [if_neg hne, h]

theorem fmtTime_ne_empty (dt : DT) : fmtTime dt ≠ "" := by
  intro hc
  have h1 : (fmtTime dt).length = 0 := by rw [hc]; rfl
  unfold fmtTime at h1
  rw [String.length_append, String.length_append, String.length_append,
    String.length_append] at h1
  have h2 : (":" : String).length = 1 := rfl
  rw [h2] at h1
  omega

theorem convert_ok_shape {o : Option String} {p : Option String × Option String}
    (h : convert_utc_to_jst o = .ok p) :
    p = (none, none) ∨ ∃ d t, p = (some d, some t) ∧ t ≠ "" := by
  unfold convert_utc_to_jst at h
  cases o with
  | none => cases h; exact Or.inl rfl
  | some s =>
    dsimp only at h
    by_cases he : s = ""
    · rw [if_pos he] at h; cases h; exact Or.inl rfl
    · rw [if_neg he] at h
      cases hp : parseTs s with
      | none => rw [hp] at h; cases h; exact Or.inl rfl
      | some dt =>
        rw [hp] at h
        simp only at h
        split at h
        · cases h
          exact Or.inr ⟨_, _, rfl, fmtTime_ne_empty (addNine dt)⟩
        · cases h

/-! ## Marker extraction lemmas -/

theorem breakOn_of_prefix {sep : List Char} (hne : sep ≠ []) (t : List Char) :
    breakOn sep (sep ++ t) = some ([], t) := by
  cases hs : sep with
  | nil => exact absurd hs hne
  | cons s0 sr =>
    rw [← hs]
    have hcons : ∃ c rest, sep ++ t = c :: rest := by
      rw [hs]; exact ⟨s0, sr ++ t, rfl⟩
    obtain ⟨c, rest, hcr⟩ := hcons
    rw [hcr]
    unfold breakOn
    have hp : sep.isPrefixOf (c :: rest) = true := by
      rw [← hcr]
      exact List.isPrefixOf_iff_prefix.mpr ⟨t, rfl⟩
    rw [if_pos hp, ← hcr, List.drop_left]

theorem prefix_stop_newline {sep id tail : List Char} (hnl : '\n' ∉ sep)
    (h : sep <+: id ++ '\n' :: tail) : sep <+: id := by
  obtain ⟨rest, hrest⟩ := h
  by_cases hl : sep.length ≤ id.length
  · have h1 : (id ++ '\n' :: tail).take sep.length = sep := by
      rw [← hrest, List.take_left]
    rw [List.take_append_eq_append_take] at h1
    have e1 : sep.length - id.length = 0 := by omega
    rw [e1, List.take_zero, List.append_nil] at h1
    exact h1 ▸ List.take_prefix _ _
  · exfalso
    have hs : id.length < sep.length := by omega
    have etake : (sep ++ rest).take (id.length + 1) = sep.take (id.length + 1) := by
      rw [List.take_append_eq_append_take]
      have h0 : id.length + 1 - sep.length = 0 := by omega
      rw [h0, List.take_zero, List.append_nil]
    have etake2 : (id ++ '\n' :: tail).take (id.length + 1) = id ++ ['\n'] := by
      rw [List.take_append_eq_append_take]
      have h0 : id.length + 1 - id.length = 1 := by omega
      rw [h0, List.take_of_length_le (Nat.le_succ _)]
      rfl
    have h5 : sep.take (id.length + 1) = id ++ ['\n'] := by
      rw [← etake, hrest, etake2]
    have h6 : '\n' ∈ sep.take (id.length + 1) := by
      rw [h5]; simp
    exact hnl ((List.take_prefix (id.length + 1) sep).subset h6)

theorem breakOn_skip_newline {sep : List Char} (hne : sep ≠ []) (hnl : '\n' ∉ sep)
    (id : List Char) : ∀ (tail : List Char), ¬ (sep <:+: id) → '\n' ∉ id →
    breakOn sep (id ++ '\n' :: tail) = none ∨
    ∃ w post, breakOn sep (id ++ '\n' :: tail) = some (id ++ '\n' :: w, post) := by
  induction id with
  | nil =>
    intro tail hocc hnlid
    have hp : sep.isPrefixOf ('\n' :: tail) = false := by
      cases sep with
      | nil => exact absurd rfl hne
      | cons s0 sr =>
        have hs0 : ¬ (s0 = '\n') := fun he => hnl (he ▸ List.mem_cons_self _ _)
        simp [List.isPrefixOf, hs0]
    rw [List.nil_append]
    unfold breakOn
    rw [hp]
    simp only [Bool.false_eq_true, if_false]
    cases hb : breakOn sep tail with
    | none => exact Or.inl rfl
    | some pr => exact Or.inr ⟨pr.1, pr.2, rfl⟩
  | cons c cs ih =>
    intro tail hocc hnlid
    have hcnl : ¬ (c = '\n') := fun he => hnlid (he ▸ List.mem_cons_self _ _)
    have hcsnl : '\n' ∉ cs := fun hm => hnlid (List.mem_cons_of_mem _ hm)
    have hocc2 : ¬ (sep <:+: cs) := by
      intro hm
      obtain ⟨s, t, hst⟩ := hm
      exact hocc ⟨c :: s, t, by rw [List.cons_append, List.cons_append, hst]⟩
    by_cases hp : sep.isPrefixOf (c :: (cs ++ '\n' :: tail)) = true
    · exfalso
      have hpre : sep <+: (c :: cs) ++ '\n' :: tail :=
        List.isPrefixOf_iff_prefix.mp hp
      exact hocc (prefix_stop_newline hnl hpre).isInfix
    · rw [List.cons_append]
      unfold breakOn
      rw [if_neg hp]
      rcases ih tail hocc2 hcsnl with hnone | ⟨w, post, hsome⟩
      · rw [hnone]; exact Or.inl rfl
      · rw [hsome]; exact Or.inr ⟨w, post, rfl⟩

theorem breakOn_newline (id : List Char) : ∀ (w : List Char), '\n' ∉ id →
    breakOn ['\n'] (id ++ '\n' :: w) = some (id, w) := by
  induction id with
  | nil =>
    intro w hnlid
    rw [List.nil_append]
    unfold breakOn
    have hp : List.isPrefixOf ['\n'] ('\n' :: w) = true := by
      simp [List.isPrefixOf]
    rw [if_pos hp]
    rfl
  | cons c cs ih =>
    intro w hnlid
    have hcnl : ¬ (c = '\n') := fun he => hnlid (he ▸ List.mem_cons_self _ _)
    have hcsnl : '\n' ∉ cs := fun hm => hnlid (List.mem_cons_of_mem _ hm)
    rw [List.cons_append]
    unfold breakOn
    have hp : List.isPrefixOf ['\n'] (c :: (cs ++ '\n' :: w)) = false := by
      have : ¬ ('\n' = c) := fun he => hcnl he.symm
      simp [List.isPrefixOf, this]
    rw [hp]
    simp only [Bool.false_eq_true, if_false]
    rw [ih w hcsnl]

theorem string_mk_data (s : String) : String.mk s.data = s := rfl

theorem extract_roundtrip (cid u : String)
    (h1 : ¬ (marker.data <:+: cid.data)) (h2 : '\n' ∉ cid.data) :
    extract_card_id (marker ++ cid ++ ("\nURL: " ++ u)) = cid := by
  have mne : marker.data ≠ [] := by decide
  have mnl : '\n' ∉ marker.data := by decide
  have hdata : (marker ++ cid ++ ("\nURL: " ++ u)).data =
      marker.data ++ (cid.data ++ '\n' :: ("URL: ".data ++ u.data)) := by
    have e1 : ("\nURL: " : String).data = '\n' :: ("URL: " : String).data := rfl
    simp only [String.data_append, e1, List.append_assoc, List.cons_append]
  unfold extract_card_id pyAfterFirst
  rw [hdata, breakOn_of_prefix mne]
  unfold pyUpToNext
  rcases breakOn_skip_newline mne mnl cid.data ("URL: ".data ++ u.data) h1 h2 with
    hnone | ⟨w, post, hsome⟩
  · rw [hnone, breakOn_newline cid.data _ h2]
  · rw [hsome]
    simp only
    rw [breakOn_newline cid.data w h2]


/-! ## Destination index lemmas -/

theorem dictGetLast_mem {ps : List (String × String)} {k : String}
    (h : ∃ v, (k, v) ∈ ps) :
    ∃ v, dictGetLast ps k = some v ∧ (k, v) ∈ ps := by
  obtain ⟨v0, hv0⟩ := h
  have hrev : (k, v0) ∈ ps.reverse := List.mem_reverse.mpr hv0
  have hsome : (ps.reverse.find? (fun pr => pr.1 == k)).isSome := by
    rw [List.find?_isSome]
    exact ⟨(k, v0), hrev, by simp⟩
  obtain ⟨pr, hpr⟩ := Option.isSome_iff_exists.mp hsome
  have hmem : pr ∈ ps.reverse := List.mem_of_find?_eq_some hpr
  have hk : pr.1 = k := by
    have hfind := List.find?_some hpr
    simpa using hfind
  refine ⟨pr.2, ?_, ?_⟩
  · unfold dictGetLast
    rw [hpr]
    rfl
  · have hpe : pr = (k, pr.2) := by rw [← hk]
    exact hpe ▸ List.mem_reverse.mp hmem

theorem indexPairs_key_mem {evs : List GItem} {e : GItem}
    (he : e ∈ evs) {k : String} (hk : extractKey e = some k) :
    (k, e.id) ∈ indexPairs evs := by
  unfold indexPairs
  rw [List.mem_filterMap]
  exact ⟨e, he, by rw [hk]; rfl⟩

theorem indexPairs_mem_inv {evs : List GItem} {pr : String × String}
    (h : pr ∈ indexPairs evs) :
    ∃ e, e ∈ evs ∧ extractKey e = some pr.1 ∧ pr.2 = e.id := by
  unfold indexPairs at h
  rw [List.mem_filterMap] at h
  obtain ⟨e, he, hfe⟩ := h
  cases hke : extractKey e with
  | none => rw [hke] at hfe; cases hfe
  | some k =>
    rw [hke] at hfe
    cases hfe
    exact ⟨e, he, hke, rfl⟩

theorem string_append_assoc (a b c : String) : (a ++ b) ++ c = a ++ (b ++ c) := by
  apply String.ext
  simp [String.data_append]

theorem extractKey_descFor {e : GItem} {c : Card}
    (hd : e.description = some (descFor c))
    (h1 : ¬ (marker.data <:+: c.id.data)) (h2 : '\n' ∉ c.id.data) :
    extractKey e = some c.id := by
  unfold extractKey
  rw [hd]
  simp only [Option.getD_some]
  have hshape : descFor c = marker ++ c.id ++ ("\nURL: " ++ c.url.getD "") := by
    unfold descFor
    rw [string_append_assoc (marker ++ c.id)]
  have hinf : marker.data <:+: (descFor c).data := by
    refine ⟨[], (c.id ++ ("\nURL: " ++ c.url.getD "")).data, ?_⟩
    rw [hshape]
    simp [String.data_append]
  rw [if_pos hinf, hshape, extract_roundtrip c.id _ h1 h2]

/-! ## Engine lemmas -/

theorem eventDecision_skip {resolve : Option String → String} {c : Card}
    {idx : List (String × String)} {sd st dd dtm : Option String}
    (h1 : convert_utc_to_jst (pyOr c.start c.due) = .ok (sd, st))
    (h2 : convert_utc_to_jst c.due = .ok (dd, dtm))
    (h3 : sd = none ∨ dd = none) :
    eventDecision resolve c idx = .ok none := by
  unfold eventDecision
  rw [h1]
  dsimp only
  rw [h2]
  dsimp only
  have hfalse : ¬ ((truthyO sd && truthyO dd) = true) := by
    rcases h3 with h | h <;> subst h <;> simp [truthyO]
  rw [if_neg hfalse]

theorem eventDecision_dispatch {resolve : Option String → String} {c : Card}
    {idx : List (String × String)} {sd st dd dtm : Option String}
    (h1 : convert_utc_to_jst (pyOr c.start c.due) = .ok (sd, st))
    (h2 : convert_utc_to_jst c.due = .ok (dd, dtm))
    (h3 : truthyO sd = true) (h4 : truthyO dd = true) :
    eventDecision resolve c idx =
      .ok (some (dispatchOf idx c.id (mkGEvent resolve c sd st dd dtm))) := by
  unfold eventDecision
  rw [h1]
  dsimp only
  rw [h2]
  dsimp only
  rw [if_pos (by simp [h3, h4] : (truthyO sd && truthyO dd) = true)]

theorem eventDecision_inv {resolve : Option String → String} {c : Card}
    {idx : List (String × String)} {call : Call}
    (h : eventDecision resolve c idx = .ok (some call)) :
    ∃ sd st dd dtm, convert_utc_to_jst (pyOr c.start c.due) = .ok (sd, st) ∧
      convert_utc_to_jst c.due = .ok (dd, dtm) ∧
      truthyO sd = true ∧ truthyO dd = true ∧
      call = dispatchOf idx c.id (mkGEvent resolve c sd st dd dtm) := by
  unfold eventDecision at h
  cases hc1 : convert_utc_to_jst (pyOr c.start c.due) with
  | error e => rw [hc1] at h; cases h
  | ok p =>
    obtain ⟨sd, st⟩ := p
    rw [hc1] at h
    dsimp only at h
    cases hc2 : convert_utc_to_jst c.due with
    | error e => rw [hc2] at h; cases h
    | ok q =>
      obtain ⟨dd, dtm⟩ := q
      rw [hc2] at h
      dsimp only at h
      split at h
      · cases h
        next hcond =>
        rw [Bool.and_eq_true] at hcond
        exact ⟨sd, st, dd, dtm, rfl, rfl, hcond.1, hcond.2, rfl⟩
      · cases h

theorem eventDecision_err_inv {resolve : Option String → String} {c : Card}
    {idx : List (String × String)} {e : PyErr}
    (h : eventDecision resolve c idx = .error e) :
    convert_utc_to_jst (pyOr c.start c.due) = .error e ∨
    ∃ p, convert_utc_to_jst (pyOr c.start c.due) = .ok p ∧
      convert_utc_to_jst c.due = .error e := by
  unfold eventDecision at h
  cases hc1 : convert_utc_to_jst (pyOr c.start c.due) with
  | error e1 => rw [hc1] at h; cases h; exact Or.inl rfl
  | ok p =>
    obtain ⟨sd, st⟩ := p
    rw [hc1] at h
    dsimp only at h
    cases hc2 : convert_utc_to_jst c.due with
    | error e2 => rw [hc2] at h; cases h; exact Or.inr ⟨(sd, st), rfl, rfl⟩
    | ok q =>
      obtain ⟨dd, dtm⟩ := q
      rw [hc2] at h
      dsimp only at h
      split at h <;> cases h

theorem dispatchOf_create {idx : List (String × String)} {cardId : String}
    (h : dictGetLast idx cardId = none) (ev : GEvent) :
    dispatchOf idx cardId ev = .create ev := by
  unfold dispatchOf
  rw [h]

theorem dispatchOf_update {idx : List (String × String)} {cardId eid : String}
    (h : dictGetLast idx cardId = some eid) (hne : eid ≠ "") (ev : GEvent) :
    dispatchOf idx cardId ev = .update eid ev := by
  unfold dispatchOf
  rw [h]
  dsimp only
  rw [if_neg hne]

theorem update_or_create_of_skip {client : Call → Except String Unit}
    {resolve : Option String → String} {c : Card} {idx : List (String × String)}
    (h : eventDecision resolve c idx = .ok none) :
    update_or_create_event client resolve c idx = .ok ([], .skipped) := by
  unfold update_or_create_event
  rw [h]

theorem update_or_create_of_dispatch {client : Call → Except String Unit}
    {resolve : Option String → String} {c : Card} {idx : List (String × String)}
    {call : Call} (h : eventDecision resolve c idx = .ok (some call)) :
    update_or_create_event client resolve c idx =
      (match client call with
       | .ok _ => .ok ([call], .succeeded)
       | .error e => .ok ([call], .failed (logFail c e))) := by
  unfold update_or_create_event
  rw [h]

theorem update_or_create_client_error {client : Call → Except String Unit}
    {resolve : Option String → String} {c : Card} {idx : List (String × String)}
    {call : Call} {e : String}
    (h : eventDecision resolve c idx = .ok (some call))
    (hcl : client call = .error e) :
    update_or_create_event client resolve c idx =
      .ok ([call], .failed (logFail c e)) := by
  rw [update_or_create_of_dispatch h, hcl]

theorem update_or_create_isOk {client : Call → Except String Unit}
    {resolve : Option String → String} {c : Card} {idx : List (String × String)}
    {r : Option Call} (h : eventDecision resolve c idx = .ok r) :
    ∃ pr, update_or_create_event client resolve c idx = .ok pr ∧
      pr.1 = r.toList := by
  cases r with
  | none => exact ⟨([], .skipped), update_or_create_of_skip h, rfl⟩
  | some call =>
    rw [update_or_create_of_dispatch h]
    cases hcl : client call with
    | ok u => exact ⟨([call], .succeeded), rfl, rfl⟩
    | error e => exact ⟨([call], .failed (logFail c e)), rfl, rfl⟩

theorem runBatch_ok_length {client : Call → Except String Unit}
    {resolve : Option String → String} {idx : List (String × String)}
    {cards : List Card}
    (h : ∀ c ∈ cards, ∃ r, eventDecision resolve c idx = .ok r) :
    ∃ rs, runBatch client resolve idx cards = .ok rs ∧
      rs.length = cards.length := by
  induction cards with
  | nil => exact ⟨[], rfl, rfl⟩
  | cons c cs ih =>
    obtain ⟨r, hr⟩ := h c (List.mem_cons_self _ _)
    obtain ⟨pr, hpr, -⟩ := @update_or_create_isOk client resolve c idx r hr
    obtain ⟨rs, hrs, hlen⟩ := ih (fun x hx => h x (List.mem_cons_of_mem _ hx))
    refine ⟨pr :: rs, ?_, by simp [hlen]⟩
    unfold runBatch
    rw [hpr, hrs]

theorem runBatch_cons_ok {client : Call → Except String Unit}
    {resolve : Option String → String} {idx : List (String × String)}
    {c : Card} (cs : List Card) {r : List Call × Outcome}
    (hr : update_or_create_event client resolve c idx = .ok r) :
    runBatch client resolve idx (c :: cs) =
      Except.map (fun rs => r :: rs) (runBatch client resolve idx cs) := by
  cases hx : runBatch client resolve idx cs with
  | error e =>
    unfold runBatch
    rw [hr, hx]
    rfl
  | ok rs =>
    unfold runBatch
    rw [hr, hx]
    rfl

theorem countCreates_cons (r : List Call × Outcome) (rs : List (List Call × Outcome)) :
    countCreates (r :: rs) = r.1.countP isCreateCall + countCreates rs := by
  unfold countCreates
  simp [List.countP_append]

theorem runBatch_no_creates {client : Call → Except String Unit}
    {resolve : Option String → String} {idx : List (String × String)}
    {cards : List Card}
    (h : ∀ c ∈ cards, ∃ r, eventDecision resolve c idx = .ok r ∧
        ∀ ev, r ≠ some (Call.create ev)) :
    ∃ rs, runBatch client resolve idx cards = .ok rs ∧ countCreates rs = 0 := by
  induction cards with
  | nil => exact ⟨[], rfl, rfl⟩
  | cons c cs ih =>
    obtain ⟨r, hr, hnc⟩ := h c (List.mem_cons_self _ _)
    obtain ⟨pr, hpr, hpr1⟩ := @update_or_create_isOk client resolve c idx r hr
    obtain ⟨rs, hrs, hcnt⟩ := ih (fun x hx => h x (List.mem_cons_of_mem _ hx))
    refine ⟨pr :: rs, ?_, ?_⟩
    · unfold runBatch
      rw [hpr, hrs]
    · rw [countCreates_cons, hcnt, hpr1]
      cases r with
      | none => rfl
      | some call =>
        cases call with
        | create ev => exact absurd rfl (hnc ev)
        | update eid ev => rfl

/-! ## Further helper lemmas -/

theorem dictGetLast_some_mem {ps : List (String × String)} {k v : String}
    (h : dictGetLast ps k = some v) : (k, v) ∈ ps := by
  unfold dictGetLast at h
  cases hf : ps.reverse.find? (fun pr => pr.1 == k) with
  | none => rw [hf] at h; cases h
  | some pr =>
    rw [hf] at h
    cases h
    have hmem := List.mem_of_find?_eq_some hf
    have hk : pr.1 = k := by simpa using List.find?_some hf
    have hpe : pr = (k, pr.2) := by rw [← hk]
    exact hpe ▸ List.mem_reverse.mp hmem

theorem eventDecision_skip_bool {resolve : Option String → String} {c : Card}
    {idx : List (String × String)} {sd st dd dtm : Option String}
    (h1 : convert_utc_to_jst (pyOr c.start c.due) = .ok (sd, st))
    (h2 : convert_utc_to_jst c.due = .ok (dd, dtm))
    (h3 : ¬ ((truthyO sd && truthyO dd) = true)) :
    eventDecision resolve c idx = .ok none := by
  unfold eventDecision
  rw [h1]
  dsimp only
  rw [h2]
  dsimp only
  rw [if_neg h3]

theorem eventDecision_skip_inv {resolve : Option String → String} {c : Card}
    {idx : List (String × String)}
    (h : eventDecision resolve c idx = .ok none) :
    ∃ sd st dd dtm, convert_utc_to_jst (pyOr c.start c.due) = .ok (sd, st) ∧
      convert_utc_to_jst c.due = .ok (dd, dtm) ∧
      ¬ ((truthyO sd && truthyO dd) = true) := by
  unfold eventDecision at h
  cases hc1 : convert_utc_to_jst (pyOr c.start c.due) with
  | error e => rw [hc1] at h; cases h
  | ok p =>
    obtain ⟨sd, st⟩ := p
    rw [hc1] at h
    dsimp only at h
    cases hc2 : convert_utc_to_jst c.due with
    | error e => rw [hc2] at h; cases h
    | ok q =>
      obtain ⟨dd, dtm⟩ := q
      rw [hc2] at h
      dsimp only at h
      split at h
      · cases h
      · next hcond => exact ⟨sd, st, dd, dtm, rfl, rfl, hcond⟩

theorem update_or_create_ok_inv {client : Call → Except String Unit}
    {resolve : Option String → String} {c : Card} {idx : List (String × String)}
    {pr : List Call × Outcome}
    (h : update_or_create_event client resolve c idx = .ok pr) :
    ∃ r, eventDecision resolve c idx = .ok r := by
  unfold update_or_create_event at h
  cases hd : eventDecision resolve c idx with
  | error e => rw [hd] at h; cases h
  | ok r => exact ⟨r, rfl⟩

theorem runBatch_ok_of_mem {client : Call → Except String Unit}
    {resolve : Option String → String} {idx : List (String × String)}
    {cards : List Card} {rs : List (List Call × Outcome)}
    (h : runBatch client resolve idx cards = .ok rs) :
    ∀ c ∈ cards, ∃ r, eventDecision resolve c idx = .ok r := by
  induction cards generalizing rs with
  | nil => intro c hc; cases hc
  | cons c0 cs ih =>
    intro c hc
    unfold runBatch at h
    cases hu : update_or_create_event client resolve c0 idx with
    | error e => rw [hu] at h; cases h
    | ok r0 =>
      rw [hu] at h
      dsimp only at h
      cases hrest : runBatch client resolve idx cs with
      | error e => rw [hrest] at h; cases h
      | ok rs0 =>
        rw [hrest] at h
        rcases List.mem_cons.mp hc with hceq | hmem
        · subst hceq; exact update_or_create_ok_inv hu
        · exact ih hrest c hmem

theorem eventOf_dispatchOf (idx : List (String × String)) (k : String)
    (ev : GEvent) : eventOf (dispatchOf idx k ev) = ev := by
  unfold dispatchOf
  cases dictGetLast idx k with
  | none => rfl
  | some eid =>
    dsimp only
    split <;> rfl

theorem pyOrD_some_ne {t dflt : String} (h : t ≠ "") :
    pyOrD (some t) dflt = t := by
  unfold pyOrD truthyO pyStr
  simp [h]

/-! ## Claim C1 -/

/-- C1 counterexample: the claim states that every Z-suffixed ISO-8601 UTC
timestamp is normalized to the date and time strings of the instant shifted
by nine hours, and that the normalizer never raises.  The input
`"9999-12-31T15:00:00Z"` parses under the plain format, but its nine-hour
shift leaves the representable year range, so `convert_utc_to_jst` raises
an uncaught `OverflowError` instead of returning any pair. -/
theorem C1_counterexample :
    parseTs "9999-12-31T15:00:00Z" = some ⟨9999, 12, 31, 15, 0, 0⟩ ∧
    convert_utc_to_jst (some "9999-12-31T15:00:00Z") =
      Except.error PyErr.overflowErr := by
  constructor
  · decide
  · decide

/-- C1 (amended): the timestamp normalizer returns `(absent, absent)` on an
absent or empty input; on a string accepted by the two strptime formats it
returns the date and time strings of the parsed instant shifted forward by
exactly nine hours (witnessed on the linear timeline by `toSecs`), provided
the shifted instant stays within year 9999 — a parseable timestamp within
nine hours of year 10000 instead raises an uncaught range `OverflowError`;
on any other non-empty string it returns `(absent, absent)` after a logged
diagnostic rather than raising; in particular on the three concrete spec
examples. -/
theorem C1_normalizer_amended :
    convert_utc_to_jst none = .ok (none, none) ∧
    convert_utc_to_jst (some "") = .ok (none, none) ∧
    (∀ s dt, parseTs s = some dt → (addNine dt).y ≤ 9999 →
      convert_utc_to_jst (some s) =
        .ok (some (fmtDate (addNine dt)), some (fmtTime (addNine dt))) ∧
      toSecs (addNine dt) = toSecs dt + 9 * 3600) ∧
    (∀ s dt, parseTs s = some dt → ¬ ((addNine dt).y ≤ 9999) →
      convert_utc_to_jst (some s) = Except.error PyErr.overflowErr) ∧
    (∀ s, s ≠ "" → parseTs s = none →
      convert_utc_to_jst (some s) = .ok (none, none)) ∧
    convert_utc_to_jst (some "2025-06-01T10:00:00Z") =
      .ok (some "2025-06-01", some "19:00:00") ∧
    convert_utc_to_jst (some "2025-06-01T10:00:00.500Z") =
      .ok (some "2025-06-01", some "19:00:00") ∧
    convert_utc_to_jst (some "not-a-date") = .ok (none, none) := by
  refine ⟨rfl, rfl, ?_, ?_, ?_, by decide, by decide, by decide⟩
  · intro s dt h hy
    refine ⟨?_, toSecs_addNine dt (parseTs_valid h)⟩
    rw [convert_of_parse h, if_pos hy]
  · intro s dt h hy
    rw [convert_of_parse h, if_neg hy]
  · intro s hne h
    exact convert_of_parse_fail hne h

/-- C1 witness: the amended theorem applied at a year-rollover instant, at
an overflowing instant, and at an unparseable string. -/
theorem C1_witness :
    convert_utc_to_jst (some "2026-12-31T23:30:00Z") =
      .ok (some "2027-01-01", some "08:30:00") ∧
    toSecs (addNine ⟨2026, 12, 31, 23, 30, 0⟩) =
      toSecs ⟨2026, 12, 31, 23, 30, 0⟩ + 9 * 3600 ∧
    convert_utc_to_jst (some "9999-12-31T16:00:00Z") =
      Except.error PyErr.overflowErr ∧
    convert_utc_to_jst (some "2025-13-01T00:00:00Z") = .ok (none, none) := by
  have h1 := C1_normalizer_amended.2.2.1 "2026-12-31T23:30:00Z"
    ⟨2026, 12, 31, 23, 30, 0⟩ (by decide) (by decide)
  have h2 := C1_normalizer_amended.2.2.2.1 "9999-12-31T16:00:00Z"
    ⟨9999, 12, 31, 16, 0, 0⟩ (by decide) (by decide)
  have h3 := C1_normalizer_amended.2.2.2.2.1 "2025-13-01T00:00:00Z"
    (by decide) (by decide)
  refine ⟨h1.1.trans (by decide), h1.2, h2, h3⟩

/-! ## Claim C2 -/

/-- C2 counterexample: the claim asserts that every item whose normalized
start date is absent is skipped without an error.  For `cardOverflow` the
start string does not parse, so its normalized start date is absent
(first conjunct), yet the engine raises the uncaught `OverflowError` from
normalizing the due timestamp at line 149 instead of skipping. -/
theorem C2_counterexample :
    convert_utc_to_jst (pyOr cardOverflow.start cardOverflow.due) =
      .ok (none, none) ∧
    update_or_create_event clientOk resolveFix cardOverflow [] =
      Except.error PyErr.overflowErr := by
  constructor
  · decide
  · decide

/-- C2 (amended): for every source item both of whose timestamp
normalizations return (no range overflow), if the normalized start date or
the normalized due date is absent, the engine skips the item: it issues no
create and no update call and returns without error. -/
theorem C2_skip_amended (client : Call → Except String Unit)
    (resolve : Option String → String) (c : Card)
    (idx : List (String × String)) (p q : Option String × Option String)
    (h1 : convert_utc_to_jst (pyOr c.start c.due) = .ok p)
    (h2 : convert_utc_to_jst c.due = .ok q)
    (h3 : p.1 = none ∨ q.1 = none) :
    update_or_create_event client resolve c idx = .ok ([], .skipped) := by
  obtain ⟨sd, st⟩ := p
  obtain ⟨dd, dtm⟩ := q
  apply update_or_create_of_skip
  apply eventDecision_skip_bool h1 h2
  rcases h3 with h | h <;> simp only at h <;> subst h <;> simp [truthyO]

/-- C2 witness: a card with neither timestamp and a card with an
unparseable timestamp are both skipped with no calls and no error. -/
theorem C2_witness :
    update_or_create_event clientOk resolveFix cardNoDates [] =
      .ok ([], .skipped) ∧
    update_or_create_event clientOk resolveFix cardBadDate [] =
      .ok ([], .skipped) := by
  constructor
  · exact C2_skip_amended clientOk resolveFix cardNoDates [] (none, none)
      (none, none) (by decide) (by decide) (Or.inl rfl)
  · exact C2_skip_amended clientOk resolveFix cardBadDate [] (none, none)
      (none, none) (by decide) (by decide) (Or.inl rfl)

/-! ## Claim C3 -/

/-- C3: for a non-skipped item, an identifier present in the index (values
of a DestinationIndex are destination event identifiers, hence nonempty)
yields exactly one update call addressed to the mapped event id and zero
create calls; an identifier absent from the index yields exactly one create
call and zero update calls; in either case the client is invoked exactly
once, as the recorded call list of `update_or_create_event` shows. -/
theorem C3_dispatch (client : Call → Except String Unit)
    (resolve : Option String → String) (idx : List (String × String))
    (c : Card) (call : Call)
    (hwf : ∀ pr ∈ idx, pr.2 ≠ "")
    (hd : eventDecision resolve c idx = .ok (some call)) :
    (∀ eid, dictGetLast idx c.id = some eid →
      ∃ ev, call = Call.update eid ev ∧
        [call].countP isUpdateCall = 1 ∧ [call].countP isCreateCall = 0) ∧
    (dictGetLast idx c.id = none →
      ∃ ev, call = Call.create ev ∧
        [call].countP isCreateCall = 1 ∧ [call].countP isUpdateCall = 0) ∧
    (∃ out, update_or_create_event client resolve c idx = .ok ([call], out)) := by
  obtain ⟨sd, st, dd, dtm, h1, h2, h3, h4, hcall⟩ := eventDecision_inv hd
  subst hcall
  refine ⟨?_, ?_, ?_⟩
  · intro eid heid
    have hne : eid ≠ "" := hwf (c.id, eid) (dictGetLast_some_mem heid)
    rw [dispatchOf_update heid hne]
    exact ⟨mkGEvent resolve c sd st dd dtm, rfl, rfl, rfl⟩
  · intro heid
    rw [dispatchOf_create heid]
    exact ⟨mkGEvent resolve c sd st dd dtm, rfl, rfl, rfl⟩
  · obtain ⟨pr, hpr, hpr1⟩ := @update_or_create_isOk client resolve c idx
      (some (dispatchOf idx c.id (mkGEvent resolve c sd st dd dtm))) hd
    have hpe : pr = ([dispatchOf idx c.id (mkGEvent resolve c sd st dd dtm)], pr.2) := by
      have hpr1x : pr.1 = [dispatchOf idx c.id (mkGEvent resolve c sd st dd dtm)] := hpr1
      rw [← hpr1x]
    exact ⟨pr.2, hpe ▸ hpr⟩

/-- C3 witness: the theorem applied to `cardPlain` against an index that
maps it to event `"evX"` (update case), and against the empty index
(create case). -/
theorem C3_witness :
    (∃ ev, Call.update "evX" evC3 = Call.update "evX" ev ∧
      [Call.update "evX" evC3].countP isUpdateCall = 1 ∧
      [Call.update "evX" evC3].countP isCreateCall = 0) ∧
    (∃ out, update_or_create_event clientOk resolveFix cardPlain idx3 =
      .ok ([Call.update "evX" evC3], out)) ∧
    (∃ ev, Call.create evC3 = Call.create ev ∧
      [Call.create evC3].countP isCreateCall = 1 ∧
      [Call.create evC3].countP isUpdateCall = 0) ∧
    (∃ out, update_or_create_event clientOk resolveFix cardPlain [] =
      .ok ([Call.create evC3], out)) := by
  have hu := C3_dispatch clientOk resolveFix idx3 cardPlain
    (Call.update "evX" evC3) (by decide) (by decide)
  have hc := C3_dispatch clientOk resolveFix [] cardPlain
    (Call.create evC3) (by decide) (by decide)
  exact ⟨hu.1 "evX" (by decide), hu.2.2, hc.2.1 (by decide), hc.2.2⟩

/-! ## Claim C4 -/

/-- C4 counterexample: the claim quantifies over every identifier without a
line break.  The identifier `"xTrelloカードID: y"` contains no line break
(first conjunct), yet extracting from the engine-written description
recovers only `"x"`, because the embedded marker occurrence inside the
identifier cuts the split early. -/
theorem C4_counterexample :
    '\n' ∉ ("xTrelloカードID: y" : String).data ∧
    extract_card_id (marker ++ "xTrelloカードID: y" ++ ("\nURL: " ++ "https://x")) =
      "x" ∧
    ("x" : String) ≠ "xTrelloカードID: y" := by
  refine ⟨by decide, by decide, by decide⟩

/-- C4 (amended): for every source-item identifier containing no line break
and no occurrence of the marker literal, the Index Builder extraction
applied to the engine-written description (marker, identifier, line break,
URL line) recovers exactly that identifier, and the marker test that guards
indexing holds of that description. -/
theorem C4_roundtrip_amended (cid u : String)
    (h1 : ¬ (marker.data <:+: cid.data)) (h2 : '\n' ∉ cid.data) :
    extract_card_id (marker ++ cid ++ ("\nURL: " ++ u)) = cid ∧
    marker.data <:+: (marker ++ cid ++ ("\nURL: " ++ u)).data := by
  refine ⟨extract_roundtrip cid u h1 h2, ?_⟩
  refine ⟨[], (cid ++ ("\nURL: " ++ u)).data, ?_⟩
  simp [String.data_append]

/-- C4 witness: the round trip at identifier `"ABC123"` and URL line
`"URL: https://x"`, the concrete instance of the claim. -/
theorem C4_witness :
    extract_card_id (marker ++ "ABC123" ++ ("\nURL: " ++ "https://x")) =
      "ABC123" ∧
    marker.data <:+: (marker ++ "ABC123" ++ ("\nURL: " ++ "https://x")).data :=
  C4_roundtrip_amended "ABC123" "https://x" (by decide) (by decide)

/-! ## Claim C5 -/

/-- C5 counterexample: the claim asserts zero creates in a second run over
an unchanged snapshot whenever the destination holds, for each dispatched
item, an event carrying the engine-written description, and the builder
succeeds.  For the single card `cardMarkerId` the first run completes with
one create; `evs5` holds exactly the engine-written description for it
with a nonempty event id and the builder succeeds on it; yet the second
run again issues one create, because the marker occurrence inside the
identifier makes the rebuilt index key `"x"` instead of the identifier. -/
theorem C5_counterexample :
    Except.map countCreates (runBatch clientOk resolveFix [] [cardMarkerId]) =
      .ok 1 ∧
    evs5 = [⟨"e1", some (descFor cardMarkerId)⟩] ∧
    get_existing_events (.ok evs5) = [("x", "e1")] ∧
    Except.map countCreates
      (runBatch clientOk resolveFix (get_existing_events (.ok evs5))
        [cardMarkerId]) = .ok 1 := by
  refine ⟨by decide, rfl, by decide, by decide⟩

/-- C5 (amended): idempotence holds for items whose identifiers contain no
line break and no occurrence of the marker literal: if a first run over
`cards` completes, every destination event id is nonempty, and for each
item the first run dispatched the destination holds an event whose
description is the engine-written payload for that item, then a second run
over the unchanged snapshot with the index rebuilt from that destination
issues zero create calls. -/
theorem C5_idempotent_amended (client1 client2 : Call → Except String Unit)
    (resolve : Option String → String) (idx1 : List (String × String))
    (cards : List Card) (evs : List GItem) (rs1 : List (List Call × Outcome))
    (hrun1 : runBatch client1 resolve idx1 cards = .ok rs1)
    (hids : ∀ c ∈ cards, ¬ (marker.data <:+: c.id.data) ∧ '\n' ∉ c.id.data)
    (hevids : ∀ e ∈ evs, e.id ≠ "")
    (hdest : ∀ c ∈ cards, ∀ call, eventDecision resolve c idx1 = .ok (some call) →
      ∃ e, e ∈ evs ∧ e.description = some (descFor c)) :
    ∃ rs2, runBatch client2 resolve (get_existing_events (.ok evs)) cards = .ok rs2 ∧
      countCreates rs2 = 0 := by
  have hge : get_existing_events (.ok evs) = indexPairs evs := rfl
  apply runBatch_no_creates
  intro c hc
  obtain ⟨r1, hr1⟩ := runBatch_ok_of_mem hrun1 c hc
  cases r1 with
  | none =>
    obtain ⟨sd, st, dd, dtm, h1, h2, h3⟩ := eventDecision_skip_inv hr1
    refine ⟨none, eventDecision_skip_bool h1 h2 h3, ?_⟩
    intro ev hcontra
    cases hcontra
  | some call =>
    obtain ⟨sd, st, dd, dtm, h1, h2, h3, h4, -⟩ := eventDecision_inv hr1
    obtain ⟨e, he, hdesc⟩ := hdest c hc call hr1
    have hkey : extractKey e = some c.id :=
      extractKey_descFor hdesc (hids c hc).1 (hids c hc).2
    have hmem : (c.id, e.id) ∈ indexPairs evs := indexPairs_key_mem he hkey
    obtain ⟨v, hv, hvmem⟩ := dictGetLast_mem ⟨e.id, hmem⟩
    obtain ⟨e2, he2, -, hve2⟩ := indexPairs_mem_inv hvmem
    have hvne : v ≠ "" := by
      have hv2 : v = e2.id := hve2
      rw [hv2]
      exact hevids e2 he2
    refine ⟨some (dispatchOf (get_existing_events (.ok evs)) c.id
      (mkGEvent resolve c sd st dd dtm)), eventDecision_dispatch h1 h2 h3 h4, ?_⟩
    intro ev hcontra
    rw [hge] at hcontra
    rw [dispatchOf_update hv hvne] at hcontra
    cases hcontra

/-- C5 witness: the amended theorem applied to the single marker-safe card
`cardPlain`, whose first run creates one event, with the destination then
holding that engine-written event: the second run issues zero creates. -/
theorem C5_witness :
    ∃ rs2, runBatch clientOk resolveFix (get_existing_events (.ok evs5w))
      [cardPlain] = .ok rs2 ∧ countCreates rs2 = 0 := by
  apply C5_idempotent_amended clientOk clientOk resolveFix [] [cardPlain] evs5w
    [([Call.create evC3], Outcome.succeeded)]
  · decide
  · intro c hc
    rw [List.mem_singleton] at hc
    subst hc
    exact ⟨by decide, by decide⟩
  · intro e he
    have he2 : e = ⟨"e9", some (descFor cardPlain)⟩ := by
      simpa [evs5w] using he
    subst he2
    decide
  · intro c hc call hcall
    rw [List.mem_singleton] at hc
    subst hc
    exact ⟨⟨"e9", some (descFor cardPlain)⟩, by decide, rfl⟩

/-! ## Claim C6 -/

/-- C6: a source item with `due = "2025-07-01T00:00:00Z"` and no start
yields a create whose payload has start date equal to its end date
(2025-07-01) and start time `09:00:00` JST (the converted fallback due
instant); and in general the payload start instant is the converted
start-or-due pair with default `09:00:00`, and the end instant is the due
date with the converted due time if present, else the default
`18:00:00`. -/
theorem C6_fallback :
    update_or_create_event clientOk resolveFix card6 [] =
      .ok ([Call.create ev6], .succeeded) ∧
    ev6.startDateTime = "2025-07-01" ++ "T" ++ "09:00:00" ∧
    ev6.endDateTime = "2025-07-01" ++ "T" ++ "09:00:00" ∧
    (∀ (resolve : Option String → String) (c : Card)
      (idx : List (String × String)) (call : Call) (sd st dd dtm : Option String),
      convert_utc_to_jst (pyOr c.start c.due) = .ok (sd, st) →
      convert_utc_to_jst c.due = .ok (dd, dtm) →
      eventDecision resolve c idx = .ok (some call) →
      (eventOf call).startDateTime = pyStr sd ++ "T" ++ pyOrD st "09:00:00" ∧
      (eventOf call).endDateTime = pyStr dd ++ "T" ++ pyOrD dtm "18:00:00") := by
  refine ⟨by decide, by decide, by decide, ?_⟩
  intro resolve c idx call sd st dd dtm h1 h2 hd
  obtain ⟨sd', st', dd', dtm', h1', h2', h3, h4, hcall⟩ := eventDecision_inv hd
  rw [h1] at h1'
  rw [h2] at h2'
  have hp1 : ((sd, st) : Option String × Option String) = (sd', st') := by
    injection h1'
  have hp2 : ((dd, dtm) : Option String × Option String) = (dd', dtm') := by
    injection h2'
  cases hp1
  cases hp2
  subst hcall
  rw [eventOf_dispatchOf]
  exact ⟨rfl, rfl⟩

/-- C6 witness: the general payload rule of the theorem applied to
`card6`. -/
theorem C6_witness :
    (eventOf (Call.create ev6)).startDateTime = "2025-07-01T09:00:00" ∧
    (eventOf (Call.create ev6)).endDateTime = "2025-07-01T09:00:00" := by
  have h := C6_fallback.2.2.2 resolveFix card6 [] (Call.create ev6)
    (some "2025-07-01") (some "09:00:00") (some "2025-07-01") (some "09:00:00")
    (by decide) (by decide) (by decide)
  exact ⟨h.1.trans (by decide), h.2.trans (by decide)⟩

/-! ## Claim C7 -/

/-- C7: when the calendar list call fails, the Destination Index Builder
returns the empty index rather than failing the run; the run proceeds with
that empty index; and against the empty index every dispatched item is a
create. -/
theorem C7_index_degrade :
    (∀ msg : String, get_existing_events (.error msg) = []) ∧
    (∀ (resolve : Option String → String) (c : Card) (call : Call),
      eventDecision resolve c [] = .ok (some call) →
      ∃ ev, call = Call.create ev) ∧
    (∀ (msg : String) (client : Call → Except String Unit)
      (resolve : Option String → String) (cards : List Card), cards ≠ [] →
      main_run (.error msg) (.ok cards) client resolve =
        runBatch client resolve [] cards) := by
  refine ⟨fun msg => rfl, ?_, ?_⟩
  · intro resolve c call hd
    obtain ⟨sd, st, dd, dtm, -, -, -, -, hcall⟩ := eventDecision_inv hd
    refine ⟨mkGEvent resolve c sd st dd dtm, ?_⟩
    rw [hcall]
    exact dispatchOf_create (show dictGetLast [] c.id = none from rfl) _
  · intro msg client resolve cards hne
    unfold main_run
    dsimp only
    have hgc : get_trello_cards (.ok cards) = cards := rfl
    have hge : get_existing_events (Except.error msg) =
      ([] : List (String × String)) := rfl
    rw [hgc, hge, if_neg (fun hc => hne (List.isEmpty_iff.mp hc))]

/-- C7 witness: the theorem applied to a failing list call and the card
`card6`, which the engine then dispatches as a create. -/
theorem C7_witness :
    get_existing_events (.error "transport down") = [] ∧
    (∃ ev, Call.create ev6 = Call.create ev) ∧
    main_run (.error "transport down") (.ok [card6]) clientOk resolveFix =
      runBatch clientOk resolveFix [] [card6] := by
  refine ⟨C7_index_degrade.1 "transport down", ?_, ?_⟩
  · exact C7_index_degrade.2.1 resolveFix card6 (Call.create ev6) (by decide)
  · exact C7_index_degrade.2.2 "transport down" clientOk resolveFix [card6]
      (by decide)

/-! ## Claim C8 -/

/-- C8: per-item failure isolation.  (a) When every item normalizes
without an uncaught exception, the batch runs to completion with one
result per item; (b) a destination-client failure during the create or
update call is caught and turned into a logged outcome carrying the item
display name, with the recorded call list showing exactly one client
invocation (no retry); (c) an item whose dispatch step returned normally
never aborts the loop: the remaining items are processed unchanged. -/
theorem C8_isolation (client : Call → Except String Unit)
    (resolve : Option String → String) (idx : List (String × String)) :
    (∀ cards : List Card,
      (∀ c ∈ cards, ∃ r, eventDecision resolve c idx = .ok r) →
      ∃ rs, runBatch client resolve idx cards = .ok rs ∧
        rs.length = cards.length) ∧
    (∀ (c : Card) (call : Call) (e : String),
      eventDecision resolve c idx = .ok (some call) →
      client call = .error e →
      update_or_create_event client resolve c idx =
        .ok ([call], .failed ("イベント処理失敗: " ++ c.name ++ " - " ++ e))) ∧
    (∀ (c : Card) (cs : List Card) (r : List Call × Outcome),
      update_or_create_event client resolve c idx = .ok r →
      runBatch client resolve idx (c :: cs) =
        Except.map (fun rs => r :: rs) (runBatch client resolve idx cs)) := by
  refine ⟨?_, ?_, ?_⟩
  · intro cards h
    exact runBatch_ok_length h
  · intro c call e hd hcl
    exact update_or_create_client_error hd hcl
  · intro c cs r hr
    exact runBatch_cons_ok cs hr

/-- C8 witness: with an always-failing client, `card6` is dispatched once,
the failure is logged with its display name, and a two-card batch still
completes with two results. -/
theorem C8_witness :
    update_or_create_event clientFail resolveFix card6 [] =
      .ok ([Call.create ev6],
        .failed ("イベント処理失敗: " ++ card6.name ++ " - " ++ "boom")) ∧
    (∃ rs, runBatch clientFail resolveFix [] [card6, cardPlain] = .ok rs ∧
      rs.length = 2) := by
  have h := C8_isolation clientFail resolveFix []
  have hall : ∀ c ∈ [card6, cardPlain], ∃ r, eventDecision resolveFix c [] = Except.ok r := by
    intro c hc
    rcases List.mem_cons.mp hc with h1 | h2
    · subst h1
      exact ⟨some (Call.create ev6), by decide⟩
    · rw [List.mem_singleton] at h2
      subst h2
      exact ⟨some (Call.create evC3), by decide⟩
  obtain ⟨rs, hrs, hlen⟩ := h.1 [card6, cardPlain] hall
  exact ⟨h.2.1 card6 (Call.create ev6) "boom" (by decide) rfl,
    ⟨rs, hrs, by simpa using hlen⟩⟩

/-! ## Claim C9 -/

/-- C9: when the source fetch fails, `get_trello_cards` returns the empty
list, and the run completes normally with no create or update call issued:
`main_run` returns the empty result list for every index outcome, client
and resolver. -/
theorem C9_source_degrade :
    (∀ msg : String, get_trello_cards (.error msg) = []) ∧
    (∀ (msg : String) (eventsR : Except String (List GItem))
      (client : Call → Except String Unit) (resolve : Option String → String),
      main_run eventsR (.error msg) client resolve = .ok []) := by
  refine ⟨fun msg => rfl, ?_⟩
  intro msg eventsR client resolve
  unfold main_run
  rfl

/-! ## Claim C10 -/

/-- C10 (implicit invariant): whenever the normalizer returns, it returns
either both components absent or both present with a nonempty time string
— never a date without a time; consequently, for every dispatched item the
payload start instant is the converted start-or-fallback-due date and time
and the end instant is the converted due date and time, so the `09:00:00`
and `18:00:00` default branches of the payload construction are never
exercised. -/
theorem C10_both_or_neither :
    (∀ (o : Option String) (p : Option String × Option String),
      convert_utc_to_jst o = .ok p →
      p = (none, none) ∨ ∃ d t, p = (some d, some t) ∧ t ≠ "") ∧
    (∀ (resolve : Option String → String) (c : Card)
      (idx : List (String × String)) (call : Call) (sd st dd dtm : Option String),
      convert_utc_to_jst (pyOr c.start c.due) = .ok (sd, st) →
      convert_utc_to_jst c.due = .ok (dd, dtm) →
      eventDecision resolve c idx = .ok (some call) →
      ∃ d1 t1 d2 t2, sd = some d1 ∧ st = some t1 ∧ dd = some d2 ∧ dtm = some t2 ∧
        t1 ≠ "" ∧ t2 ≠ "" ∧
        (eventOf call).startDateTime = d1 ++ "T" ++ t1 ∧
        (eventOf call).endDateTime = d2 ++ "T" ++ t2) := by
  constructor
  · intro o p h
    exact convert_ok_shape h
  · intro resolve c idx call sd st dd dtm h1 h2 hd
    obtain ⟨sd', st', dd', dtm', h1', h2', h3, h4, hcall⟩ := eventDecision_inv hd
    rw [h1] at h1'
    rw [h2] at h2'
    have hp1 : ((sd, st) : Option String × Option String) = (sd', st') := by
      injection h1'
    have hp2 : ((dd, dtm) : Option String × Option String) = (dd', dtm') := by
      injection h2'
    cases hp1
    cases hp2
    rcases convert_ok_shape h1 with hnn | ⟨d1, t1, hpq, ht1⟩
    · exfalso
      have hsd : sd = none := congrArg Prod.fst hnn
      rw [hsd] at h3
      cases h3
    · rcases convert_ok_shape h2 with hnn2 | ⟨d2, t2, hpq2, ht2⟩
      · exfalso
        have hdd : dd = none := congrArg Prod.fst hnn2
        rw [hdd] at h4
        cases h4
      · have hsd : sd = some d1 := congrArg Prod.fst hpq
        have hst : st = some t1 := congrArg Prod.snd hpq
        have hdd : dd = some d2 := congrArg Prod.fst hpq2
        have hdtm : dtm = some t2 := congrArg Prod.snd hpq2
        refine ⟨d1, t1, d2, t2, hsd, hst, hdd, hdtm, ht1, ht2, ?_, ?_⟩
        · subst hcall
          rw [eventOf_dispatchOf]
          show pyStr sd ++ "T" ++ pyOrD st "09:00:00" = d1 ++ "T" ++ t1
          rw [hsd, hst, pyOrD_some_ne ht1]
          rfl
        · subst hcall
          rw [eventOf_dispatchOf]
          show pyStr dd ++ "T" ++ pyOrD dtm "18:00:00" = d2 ++ "T" ++ t2
          rw [hdd, hdtm, pyOrD_some_ne ht2]
          rfl

/-- C10 witness: the invariant applied at a concrete parseable input and
to the dispatch of `card6`, whose payload instants are the converted ones
(default times unused). -/
theorem C10_witness :
    (((some "2025-06-01", some "19:00:00") :
        Option String × Option String) = (none, none) ∨
      ∃ d t, ((some "2025-06-01", some "19:00:00") :
        Option String × Option String) = (some d, some t) ∧ t ≠ "") ∧
    (∃ d1 t1 d2 t2,
      (some "2025-07-01" : Option String) = some d1 ∧
      (some "09:00:00" : Option String) = some t1 ∧
      (some "2025-07-01" : Option String) = some d2 ∧
      (some "09:00:00" : Option String) = some t2 ∧
      t1 ≠ "" ∧ t2 ≠ "" ∧
      (eventOf (Call.create ev6)).startDateTime = d1 ++ "T" ++ t1 ∧
      (eventOf (Call.create ev6)).endDateTime = d2 ++ "T" ++ t2) := by
  refine ⟨?_, ?_⟩
  · exact C10_both_or_neither.1 (some "2025-06-01T10:00:00Z")
      (some "2025-06-01", some "19:00:00") (by decide)
  · exact C10_both_or_neither.2 resolveFix card6 [] (Call.create ev6)
      (some "2025-07-01") (some "09:00:00") (some "2025-07-01")
      (some "09:00:00") (by decide) (by decide) (by decide)

end TrelloSync
